import Mathlib

/-!
Verification of a first-order-logic CNF converter (CNF.py).

The source represents formulas as tagged tuples and terms as plain strings:
a Skolem application is the flat string produced by string formatting.  The
embedding below mirrors that: the formula type has one constructor per tuple
tag, predicate arguments are strings, and the fresh-symbol counter is threaded
explicitly through the functions that consume it.

All functions are defined by structural recursion (using an explicit fuel
argument where the source recursion is not structural) so that every closed
computation reduces in the kernel; the Python-shaped recursion equations are
then proved as theorems.
-/

namespace CNF

/-- Formulas, one constructor per tuple tag of the source.  Predicate
arguments are plain strings, exactly as in the source. -/
inductive Formula : Type
  | pred : String → List String → Formula
  | not : Formula → Formula
  | and : Formula → Formula → Formula
  | or : Formula → Formula → Formula
  | implies : Formula → Formula → Formula
  | iff : Formula → Formula → Formula
  | forall_ : String → Formula → Formula
  | exists_ : String → Formula → Formula
deriving DecidableEq, Repr

/-- Source helper `pred(name, *args)`. -/
def pred (name : String) (args : List String) : Formula := .pred name args

/-- The decimal digit character for a value below ten. -/
def digitChar (n : Nat) : Char := Char.ofNat (48 + n)

/-- Decimal digits of a number, most significant first; the fuel argument
makes the recursion structural (fuel above the value is always enough). -/
def decimalAux : Nat → Nat → List Char
  | 0, _ => []
  | fuel + 1, n =>
      if n < 10 then [digitChar n]
      else decimalAux fuel (n / 10) ++ [digitChar (n % 10)]

/-- Decimal rendering of a natural number, as Python string formatting
produces it. -/
def decimal (n : Nat) : String := String.mk (decimalAux (n + 1) n)

/-- Reads a digit list back to the number; left inverse of the digit
production, used to prove freshness of generated names. -/
def undigits (l : List Char) : Nat :=
  l.foldl (fun acc c => 10 * acc + (c.toNat - 48)) 0

/-- Source `new_const`: the name `c<counter>`; the counter is threaded
explicitly (the source uses a module-global `itertools.count()`). -/
def new_const (c : Nat) : String := "c" ++ decimal c

/-- The function name `f<counter>` minted by `new_func`. -/
def funcName (c : Nat) : String := "f" ++ decimal c

/-- Source `new_func`: formats a fresh name applied to the joined argument
strings, returning one flat string. -/
def new_func (c : Nat) (args : List String) : String :=
  let name := funcName c
  let arg_str := String.intercalate "," args
  name ++ "(" ++ arg_str ++ ")"

/-- Source `remove_implications`. -/
def remove_implications : Formula → Formula
  | .forall_ v b => .forall_ v (remove_implications b)
  | .exists_ v b => .exists_ v (remove_implications b)
  | .and a b => .and (remove_implications a) (remove_implications b)
  | .or a b => .or (remove_implications a) (remove_implications b)
  | .implies p q =>
      .or (.not (remove_implications p)) (remove_implications q)
  | .iff p q =>
      let P := remove_implications p
      let Q := remove_implications q
      .and (.or (.not P) Q) (.or (.not Q) P)
  | .not p => .not (remove_implications p)
  | .pred n args => .pred n args

/-- NNF with an explicit polarity: `nnfAux e true` computes what the source
`nnf` returns on `("not", e)`, `nnfAux e false` what it returns on `e`.
This makes the recursion structural; the Python-shaped equations are proved
below. -/
def nnfAux : Formula → Bool → Formula
  | .not x, s => nnfAux x !s
  | .and a b, false => .and (nnfAux a false) (nnfAux b false)
  | .and a b, true => .or (nnfAux a true) (nnfAux b true)
  | .or a b, false => .or (nnfAux a false) (nnfAux b false)
  | .or a b, true => .and (nnfAux a true) (nnfAux b true)
  | .forall_ v b, false => .forall_ v (nnfAux b false)
  | .forall_ v b, true => .exists_ v (nnfAux b true)
  | .exists_ v b, false => .exists_ v (nnfAux b false)
  | .exists_ v b, true => .forall_ v (nnfAux b true)
  | .pred n args, false => .pred n args
  | .pred n args, true => .not (.pred n args)
  | .implies a b, false => .implies a b
  | .implies a b, true => .not (.implies a b)
  | .iff a b, false => .iff a b
  | .iff a b, true => .not (.iff a b)

/-- Source `nnf`. -/
def nnf (e : Formula) : Formula := nnfAux e false

/-- Source `subst`: replaces predicate arguments equal to `var` by `value`;
`implies`/`iff` fall through the source dispatch unchanged. -/
def subst : Formula → String → String → Formula
  | .pred n args, var, value =>
      .pred n (args.map fun a => if a = var then value else a)
  | .not p, var, value => .not (subst p var value)
  | .and a b, var, value => .and (subst a var value) (subst b var value)
  | .or a b, var, value => .or (subst a var value) (subst b var value)
  | .forall_ x b, var, value => .forall_ x (subst b var value)
  | .exists_ x b, var, value => .exists_ x (subst b var value)
  | .implies a b, _, _ => .implies a b
  | .iff a b, _, _ => .iff a b

/-- Node count of a formula; the termination measure for skolemization
(substitution preserves it, see `fsize_subst`). -/
def fsize : Formula → Nat
  | .pred _ _ => 1
  | .not p => fsize p + 1
  | .and a b => fsize a + fsize b + 1
  | .or a b => fsize a + fsize b + 1
  | .implies a b => fsize a + fsize b + 1
  | .iff a b => fsize a + fsize b + 1
  | .forall_ _ b => fsize b + 1
  | .exists_ _ b => fsize b + 1

/-- Skolemization with fuel (structural in the fuel); the counter of the
fresh-symbol generator is threaded left to right exactly as the source's
global counter advances. -/
def skAux : Nat → Formula → List String → Nat → Formula × Nat
  | 0, e, _, c => (e, c)
  | fuel + 1, e, univs, c =>
      match e with
      | .forall_ v b =>
          let r := skAux fuel b (univs ++ [v]) c
          (.forall_ v r.1, r.2)
      | .exists_ v b =>
          match univs with
          | [] => skAux fuel (subst b v (new_const c)) [] (c + 1)
          | _ :: _ => skAux fuel (subst b v (new_func c univs)) univs (c + 1)
      | .and a b =>
          let ra := skAux fuel a univs c
          let rb := skAux fuel b univs ra.2
          (.and ra.1 rb.1, rb.2)
      | .or a b =>
          let ra := skAux fuel a univs c
          let rb := skAux fuel b univs ra.2
          (.or ra.1 rb.1, rb.2)
      | .not p =>
          let r := skAux fuel p univs c
          (.not r.1, r.2)
      | .pred n args => (.pred n args, c)
      | .implies a b => (.implies a b, c)
      | .iff a b => (.iff a b, c)

/-- Source `skolemize` (fuel instantiated with the node count, which is
always sufficient; see `skAux_fuel_irrel`). -/
def skolemize (e : Formula) (univs : List String) (c : Nat) : Formula × Nat :=
  skAux (fsize e) e univs c

/-- Source `drop_forall`. -/
def drop_forall : Formula → Formula
  | .forall_ _ b => drop_forall b
  | .pred n args => .pred n args
  | .not p => .not p
  | .and a b => .and a b
  | .or a b => .or a b
  | .implies a b => .implies a b
  | .iff a b => .iff a b
  | .exists_ v b => .exists_ v b

/-- Distributes a disjunction whose left side is already and-free at the
root over the conjunctions of the right side. -/
def distOrR (A : Formula) : Formula → Formula
  | .and b1 b2 => .and (distOrR A b1) (distOrR A b2)
  | .pred n args => .or A (.pred n args)
  | .not p => .or A (.not p)
  | .or a b => .or A (.or a b)
  | .implies a b => .or A (.implies a b)
  | .iff a b => .or A (.iff a b)
  | .forall_ v b => .or A (.forall_ v b)
  | .exists_ v b => .or A (.exists_ v b)

/-- Distributes a disjunction of two already-distributed formulas, left
conjunctions first, exactly in the source's priority order. -/
def distOrL : Formula → Formula → Formula
  | .and a1 a2, B => .and (distOrL a1 B) (distOrL a2 B)
  | .pred n args, B => distOrR (.pred n args) B
  | .not p, B => distOrR (.not p) B
  | .or a b, B => distOrR (.or a b) B
  | .implies a b, B => distOrR (.implies a b) B
  | .iff a b, B => distOrR (.iff a b) B
  | .forall_ v b, B => distOrR (.forall_ v b) B
  | .exists_ v b, B => distOrR (.exists_ v b) B

/-- Source `distribute` (the or-case goes through `distOrL`; the source's
recursion on freshly built or-nodes is recovered by `distribute_or_and_left`,
`distribute_or_and_right` and `distribute_or_plain` below). -/
def distribute : Formula → Formula
  | .and a b => .and (distribute a) (distribute b)
  | .or a b => distOrL (distribute a) (distribute b)
  | .pred n args => .pred n args
  | .not p => .not p
  | .implies a b => .implies a b
  | .iff a b => .iff a b
  | .forall_ v b => .forall_ v b
  | .exists_ v b => .exists_ v b

/-- Source `to_cnf`: the five stages in order, with the generator counter
threaded through skolemization (the print calls of the source are diagnostic
side effects with no bearing on the returned value). -/
def to_cnf (e : Formula) (c : Nat) : Formula × Nat :=
  let e1 := remove_implications e
  let e2 := nnf e1
  let p := skolemize e2 [] c
  let e4 := drop_forall p.1
  (distribute e4, p.2)

/-- The module-level example formula of the source:
forall x (P(x) implies exists y (Q(y) and R(x,y))). -/
def expr : Formula :=
  .forall_ "x"
    (.implies (pred "P" ["x"])
      (.exists_ "y" (.and (pred "Q" ["y"]) (pred "R" ["x", "y"]))))

/-- True when the formula contains no implies and no iff node. -/
def noImpIff : Formula → Bool
  | .pred _ _ => true
  | .not p => noImpIff p
  | .and a b => noImpIff a && noImpIff b
  | .or a b => noImpIff a && noImpIff b
  | .implies _ _ => false
  | .iff _ _ => false
  | .forall_ _ b => noImpIff b
  | .exists_ _ b => noImpIff b

/-- Negation normal form: no implies or iff anywhere, and every negation
wraps a predicate directly. -/
def isNNF : Formula → Bool
  | .pred _ _ => true
  | .not (.pred _ _) => true
  | .not _ => false
  | .and a b => isNNF a && isNNF b
  | .or a b => isNNF a && isNNF b
  | .implies _ _ => false
  | .iff _ _ => false
  | .forall_ _ b => isNNF b
  | .exists_ _ b => isNNF b

/-- True when every negation node in the formula directly wraps a
predicate. -/
def notOnlyAtoms : Formula → Bool
  | .pred _ _ => true
  | .not (.pred _ _) => true
  | .not _ => false
  | .and a b => notOnlyAtoms a && notOnlyAtoms b
  | .or a b => notOnlyAtoms a && notOnlyAtoms b
  | .implies a b => notOnlyAtoms a && notOnlyAtoms b
  | .iff a b => notOnlyAtoms a && notOnlyAtoms b
  | .forall_ _ b => notOnlyAtoms b
  | .exists_ _ b => notOnlyAtoms b

/-- True when the formula contains no exists node anywhere. -/
def noExists : Formula → Bool
  | .pred _ _ => true
  | .not p => noExists p
  | .and a b => noExists a && noExists b
  | .or a b => noExists a && noExists b
  | .implies a b => noExists a && noExists b
  | .iff a b => noExists a && noExists b
  | .forall_ _ b => noExists b
  | .exists_ _ _ => false

/-- True when the formula contains a forall node anywhere. -/
def hasForall : Formula → Bool
  | .pred _ _ => false
  | .not p => hasForall p
  | .and a b => hasForall a || hasForall b
  | .or a b => hasForall a || hasForall b
  | .implies a b => hasForall a || hasForall b
  | .iff a b => hasForall a || hasForall b
  | .forall_ _ _ => true
  | .exists_ _ b => hasForall b

/-- True when the root node is a forall. -/
def isForallB : Formula → Bool
  | .forall_ _ _ => true
  | _ => false

/-- True when the formula is a chain of leading foralls over a
forall-free body. -/
def prenexForall : Formula → Bool
  | .forall_ _ b => prenexForall b
  | .pred _ _ => true
  | .not p => !hasForall p
  | .and a b => !(hasForall a || hasForall b)
  | .or a b => !(hasForall a || hasForall b)
  | .implies a b => !(hasForall a || hasForall b)
  | .iff a b => !(hasForall a || hasForall b)
  | .exists_ _ b => !hasForall b

/-- True when the root node is a conjunction. -/
def isAndB : Formula → Bool
  | .and _ _ => true
  | _ => false

/-- No conjunction inside the or-spine: an or-tree whose leaves are not
conjunctions (leaves other than and are unconstrained, since distribution
treats every non-and, non-or node as opaque). -/
def isDisj : Formula → Bool
  | .and _ _ => false
  | .or a b => isDisj a && isDisj b
  | _ => true

/-- Fixpoints of distribution: conjunctions of or-trees that contain no
conjunction in their spines. -/
def isDist : Formula → Bool
  | .and a b => isDist a && isDist b
  | .or a b => isDisj a && isDisj b
  | _ => true

/-- A literal: a predicate or a negated predicate. -/
def isLiteral : Formula → Bool
  | .pred _ _ => true
  | .not (.pred _ _) => true
  | _ => false

/-- A clause: an or-tree over literals. -/
def isClause : Formula → Bool
  | .or a b => isClause a && isClause b
  | .pred n args => isLiteral (.pred n args)
  | .not p => isLiteral (.not p)
  | .and a b => isLiteral (.and a b)
  | .implies a b => isLiteral (.implies a b)
  | .iff a b => isLiteral (.iff a b)
  | .forall_ v b => isLiteral (.forall_ v b)
  | .exists_ v b => isLiteral (.exists_ v b)

/-- CNF shape: an and-tree over clauses. -/
def isCNF : Formula → Bool
  | .and a b => isCNF a && isCNF b
  | .or a b => isClause (.or a b)
  | .pred n args => isClause (.pred n args)
  | .not p => isClause (.not p)
  | .implies a b => isClause (.implies a b)
  | .iff a b => isClause (.iff a b)
  | .forall_ v b => isClause (.forall_ v b)
  | .exists_ v b => isClause (.exists_ v b)

/-- Quantifier-free negation normal form: an and-or tree over literals. -/
def isNNFqf : Formula → Bool
  | .and a b => isNNFqf a && isNNFqf b
  | .or a b => isNNFqf a && isNNFqf b
  | .pred n args => isLiteral (.pred n args)
  | .not p => isLiteral (.not p)
  | .implies a b => isLiteral (.implies a b)
  | .iff a b => isLiteral (.iff a b)
  | .forall_ v b => isLiteral (.forall_ v b)
  | .exists_ v b => isLiteral (.exists_ v b)

/-- True when somewhere in the tree an or node has a conjunction as a
direct child. -/
def hasOrAndChild : Formula → Bool
  | .pred _ _ => false
  | .not p => hasOrAndChild p
  | .and a b => hasOrAndChild a || hasOrAndChild b
  | .or a b => isAndB a || isAndB b || hasOrAndChild a || hasOrAndChild b
  | .implies a b => hasOrAndChild a || hasOrAndChild b
  | .iff a b => hasOrAndChild a || hasOrAndChild b
  | .forall_ _ b => hasOrAndChild b
  | .exists_ _ b => hasOrAndChild b

/-- True when the formula is built from and, or, not and predicate nodes
only. -/
def builtFromAONP : Formula → Bool
  | .pred _ _ => true
  | .not p => builtFromAONP p
  | .and a b => builtFromAONP a && builtFromAONP b
  | .or a b => builtFromAONP a && builtFromAONP b
  | .implies _ _ => false
  | .iff _ _ => false
  | .forall_ _ _ => false
  | .exists_ _ _ => false

/-- True when some predicate argument anywhere in the formula equals `a`. -/
def hasArg (a : String) : Formula → Bool
  | .pred _ args => args.contains a
  | .not p => hasArg a p
  | .and p q => hasArg a p || hasArg a q
  | .or p q => hasArg a p || hasArg a q
  | .implies p q => hasArg a p || hasArg a q
  | .iff p q => hasArg a p || hasArg a q
  | .forall_ _ p => hasArg a p
  | .exists_ _ p => hasArg a p

/-- Substitution as the specification words it: every predicate argument
equal to the variable is replaced, throughout the whole tree, rebuilding
every node; stated as a second definition to compare with the source
`subst`. -/
def substSpec (v t : String) : Formula → Formula
  | .pred n args => .pred n (args.map fun a => if a = v then t else a)
  | .not p => .not (substSpec v t p)
  | .and a b => .and (substSpec v t a) (substSpec v t b)
  | .or a b => .or (substSpec v t a) (substSpec v t b)
  | .implies a b => .implies (substSpec v t a) (substSpec v t b)
  | .iff a b => .iff (substSpec v t a) (substSpec v t b)
  | .forall_ x b => .forall_ x (substSpec v t b)
  | .exists_ x b => .exists_ x (substSpec v t b)

/-- Left subformula of a conjunction (the source reads the tuple slot
directly, which only happens after an and-tag test). -/
def andL : Formula → Formula
  | .and a _ => a
  | e => e

/-- Right subformula of a conjunction. -/
def andR : Formula → Formula
  | .and _ b => b
  | e => e

/-- A step-indexed transcription of the source `distribute`, recursion on
freshly built or-nodes included; `none` means the step budget ran out.
Used to state that the source recursion halts on every input. -/
def distributeFuel : Nat → Formula → Option Formula
  | 0, _ => none
  | fuel + 1, .and a b =>
      match distributeFuel fuel a, distributeFuel fuel b with
      | some A, some B => some (.and A B)
      | _, _ => none
  | fuel + 1, .or a b =>
      match distributeFuel fuel a, distributeFuel fuel b with
      | some A, some B =>
          if isAndB A then
            match distributeFuel fuel (.or (andL A) B),
                distributeFuel fuel (.or (andR A) B) with
            | some x, some y => some (.and x y)
            | _, _ => none
          else if isAndB B then
            match distributeFuel fuel (.or A (andL B)),
                distributeFuel fuel (.or A (andR B)) with
            | some x, some y => some (.and x y)
            | _, _ => none
          else some (.or A B)
      | _, _ => none
  | _ + 1, .pred n args => some (.pred n args)
  | _ + 1, .not p => some (.not p)
  | _ + 1, .implies a b => some (.implies a b)
  | _ + 1, .iff a b => some (.iff a b)
  | _ + 1, .forall_ v b => some (.forall_ v b)
  | _ + 1, .exists_ v b => some (.exists_ v b)

end CNF
namespace CNF

theorem digitChar_toNat : ∀ n, n < 10 → (digitChar n).toNat = 48 + n := by decide

theorem undigits_concat (l : List Char) (c : Char) :
    undigits (l ++ [c]) = 10 * undigits l + (c.toNat - 48) := by
  simp [undigits, List.foldl_append]

theorem undigits_decimalAux : ∀ fuel n, n < fuel → undigits (decimalAux fuel n) = n := by
  intro fuel
  induction fuel with
  | zero => intro n h; omega
  | succ fuel ih =>
      intro n h
      by_cases h10 : n < 10
      · simp [decimalAux, h10, undigits, digitChar_toNat n h10]
      · have hlt : n / 10 < fuel := by
          have : n / 10 < n := Nat.div_lt_self (by omega) (by omega)
          omega
        have hm : n % 10 < 10 := Nat.mod_lt _ (by omega)
        rw [decimalAux, if_neg h10, undigits_concat, ih _ hlt, digitChar_toNat _ hm]
        omega

theorem decimal_inj : ∀ m n, decimal m = decimal n → m = n := by
  intro m n h
  have h' : decimalAux (m + 1) m = decimalAux (n + 1) n := congrArg String.data h
  have hm := undigits_decimalAux (m + 1) m (by omega)
  have hn := undigits_decimalAux (n + 1) n (by omega)
  rw [h'] at hm
  omega

theorem funcName_inj : ∀ m n, m ≠ n → funcName m ≠ funcName n := by
  intro m n hne h
  have h' : (funcName m).data = (funcName n).data := congrArg String.data h
  simp only [funcName, String.data_append, decimal] at h'
  exact hne (decimal_inj m n (congrArg String.mk (List.cons_injective h')))

theorem funcName_ne_const : ∀ m n, funcName m ≠ new_const n := by
  intro m n h
  have h' : (funcName m).data = (new_const n).data := congrArg String.data h
  simp [funcName, new_const, String.data_append] at h'

theorem nnfAux_nnfAux : ∀ (e : Formula) (s : Bool), nnfAux (nnfAux e s) false = nnfAux e s := by
  intro e
  induction e with
  | pred n args => intro s; cases s <;> rfl
  | not p ih => intro s; simpa only [nnfAux] using ih (!s)
  | and a b iha ihb => intro s; cases s <;> simp [nnfAux, iha, ihb]
  | or a b iha ihb => intro s; cases s <;> simp [nnfAux, iha, ihb]
  | implies a b iha ihb => intro s; cases s <;> rfl
  | iff a b iha ihb => intro s; cases s <;> rfl
  | forall_ v b ih => intro s; cases s <;> simp [nnfAux, ih]
  | exists_ v b ih => intro s; cases s <;> simp [nnfAux, ih]

theorem notOnlyAtoms_nnfAux :
    ∀ (e : Formula) (s : Bool), noImpIff e = true → notOnlyAtoms (nnfAux e s) = true := by
  intro e
  induction e with
  | pred n args => intro s _; cases s <;> rfl
  | not p ih => intro s h; simp only [noImpIff] at h; simpa only [nnfAux] using ih (!s) h
  | and a b iha ihb =>
      intro s h
      simp only [noImpIff, Bool.and_eq_true] at h
      cases s <;> simp [nnfAux, notOnlyAtoms, iha _ h.1, ihb _ h.2]
  | or a b iha ihb =>
      intro s h
      simp only [noImpIff, Bool.and_eq_true] at h
      cases s <;> simp [nnfAux, notOnlyAtoms, iha _ h.1, ihb _ h.2]
  | implies a b iha ihb => intro s h; simp [noImpIff] at h
  | iff a b iha ihb => intro s h; simp [noImpIff] at h
  | forall_ v b ih =>
      intro s h
      simp only [noImpIff] at h
      cases s <;> simp [nnfAux, notOnlyAtoms, ih _ h]
  | exists_ v b ih =>
      intro s h
      simp only [noImpIff] at h
      cases s <;> simp [nnfAux, notOnlyAtoms, ih _ h]

theorem nnf_not_not (x : Formula) : nnf (.not (.not x)) = nnf x := rfl

theorem nnf_not_and (a b : Formula) :
    nnf (.not (.and a b)) = .or (nnf (.not a)) (nnf (.not b)) := rfl

theorem nnf_not_or (a b : Formula) :
    nnf (.not (.or a b)) = .and (nnf (.not a)) (nnf (.not b)) := rfl

theorem nnf_not_forall (v : String) (b : Formula) :
    nnf (.not (.forall_ v b)) = .exists_ v (nnf (.not b)) := rfl

theorem nnf_not_exists (v : String) (b : Formula) :
    nnf (.not (.exists_ v b)) = .forall_ v (nnf (.not b)) := rfl

theorem nnf_not_pred (n : String) (args : List String) :
    nnf (.not (.pred n args)) = .not (nnf (.pred n args)) := rfl

theorem nnf_and (a b : Formula) : nnf (.and a b) = .and (nnf a) (nnf b) := rfl

theorem nnf_or (a b : Formula) : nnf (.or a b) = .or (nnf a) (nnf b) := rfl

theorem nnf_forall (v : String) (b : Formula) :
    nnf (.forall_ v b) = .forall_ v (nnf b) := rfl

theorem nnf_exists (v : String) (b : Formula) :
    nnf (.exists_ v b) = .exists_ v (nnf b) := rfl

end CNF
namespace CNF

theorem fsize_pos (e : Formula) : 0 < fsize e := by
  cases e <;> simp [fsize]

theorem fsize_subst : ∀ (e : Formula) (v t : String), fsize (subst e v t) = fsize e := by
  intro e v t
  induction e <;> simp [subst, fsize, *]

theorem noImpIff_subst : ∀ (e : Formula) (v t : String),
    noImpIff (subst e v t) = noImpIff e := by
  intro e v t
  induction e <;> simp [subst, noImpIff, *]

theorem skAux_fuel_irrel :
    ∀ (f1 f2 : Nat) (e : Formula) (univs : List String) (c : Nat),
      fsize e ≤ f1 → fsize e ≤ f2 → skAux f1 e univs c = skAux f2 e univs c := by
  intro f1
  induction f1 with
  | zero => intro f2 e univs c h1 _; have := fsize_pos e; omega
  | succ f1 ih =>
      intro f2 e univs c h1 h2
      cases f2 with
      | zero => have := fsize_pos e; omega
      | succ f2 =>
          cases e with
          | forall_ v b =>
              simp only [fsize] at h1 h2
              simp only [skAux]
              rw [ih f2 b (univs ++ [v]) c (by omega) (by omega)]
          | exists_ v b =>
              simp only [fsize] at h1 h2
              cases univs with
              | nil =>
                  simp only [skAux]
                  exact ih f2 _ [] (c + 1)
                    (by rw [fsize_subst]; omega) (by rw [fsize_subst]; omega)
              | cons u us =>
                  simp only [skAux]
                  exact ih f2 _ _ (c + 1)
                    (by rw [fsize_subst]; omega) (by rw [fsize_subst]; omega)
          | and a b =>
              simp only [fsize] at h1 h2
              simp only [skAux]
              rw [ih f2 a univs c (by omega) (by omega),
                  ih f2 b univs _ (by omega) (by omega)]
          | or a b =>
              simp only [fsize] at h1 h2
              simp only [skAux]
              rw [ih f2 a univs c (by omega) (by omega),
                  ih f2 b univs _ (by omega) (by omega)]
          | not p =>
              simp only [fsize] at h1 h2
              simp only [skAux]
              rw [ih f2 p univs c (by omega) (by omega)]
          | pred n args => simp only [skAux]
          | implies a b => simp only [skAux]
          | iff a b => simp only [skAux]

theorem skolemize_forall (v : String) (b : Formula) (univs : List String) (c : Nat) :
    skolemize (.forall_ v b) univs c =
      (.forall_ v (skolemize b (univs ++ [v]) c).1, (skolemize b (univs ++ [v]) c).2) := rfl

theorem skolemize_exists_empty (v : String) (b : Formula) (c : Nat) :
    skolemize (.exists_ v b) [] c = skolemize (subst b v (new_const c)) [] (c + 1) := by
  simp only [skolemize, fsize, skAux]
  exact skAux_fuel_irrel (fsize b) (fsize (subst b v (new_const c))) _ [] (c + 1)
    (by rw [fsize_subst]) (le_refl _)

theorem skolemize_exists_nonempty (v : String) (b : Formula) (univs : List String)
    (c : Nat) (h : univs ≠ []) :
    skolemize (.exists_ v b) univs c =
      skolemize (subst b v (new_func c univs)) univs (c + 1) := by
  cases univs with
  | nil => exact absurd rfl h
  | cons u us =>
      simp only [skolemize, fsize, skAux]
      exact skAux_fuel_irrel (fsize b) (fsize (subst b v (new_func c (u :: us)))) _ _ (c + 1)
        (by rw [fsize_subst]) (le_refl _)

theorem skolemize_and (a b : Formula) (univs : List String) (c : Nat) :
    skolemize (.and a b) univs c =
      (.and (skolemize a univs c).1 (skolemize b univs (skolemize a univs c).2).1,
        (skolemize b univs (skolemize a univs c).2).2) := by
  simp only [skolemize, fsize, skAux]
  rw [skAux_fuel_irrel (fsize a + fsize b) (fsize a) a univs c (by omega) (le_refl _),
      skAux_fuel_irrel (fsize a + fsize b) (fsize b) b univs _ (by omega) (le_refl _)]

theorem skolemize_or (a b : Formula) (univs : List String) (c : Nat) :
    skolemize (.or a b) univs c =
      (.or (skolemize a univs c).1 (skolemize b univs (skolemize a univs c).2).1,
        (skolemize b univs (skolemize a univs c).2).2) := by
  simp only [skolemize, fsize, skAux]
  rw [skAux_fuel_irrel (fsize a + fsize b) (fsize a) a univs c (by omega) (le_refl _),
      skAux_fuel_irrel (fsize a + fsize b) (fsize b) b univs _ (by omega) (le_refl _)]

theorem skolemize_not (p : Formula) (univs : List String) (c : Nat) :
    skolemize (.not p) univs c =
      (.not (skolemize p univs c).1, (skolemize p univs c).2) := rfl

theorem skolemize_pred (n : String) (args : List String) (univs : List String) (c : Nat) :
    skolemize (.pred n args) univs c = (.pred n args, c) := rfl

theorem noExists_skAux :
    ∀ (fuel : Nat) (e : Formula) (univs : List String) (c : Nat),
      fsize e ≤ fuel → noImpIff e = true → noExists (skAux fuel e univs c).1 = true := by
  intro fuel
  induction fuel with
  | zero => intro e univs c h _; have := fsize_pos e; omega
  | succ fuel ih =>
      intro e univs c h hn
      cases e with
      | pred n args => simp [skAux, noExists]
      | not p =>
          simp only [fsize] at h
          simp only [noImpIff] at hn
          simp only [skAux, noExists]
          exact ih p univs c (by omega) hn
      | and a b =>
          simp only [fsize] at h
          simp only [noImpIff, Bool.and_eq_true] at hn
          simp only [skAux, noExists, Bool.and_eq_true]
          exact ⟨ih a univs c (by omega) hn.1, ih b univs _ (by omega) hn.2⟩
      | or a b =>
          simp only [fsize] at h
          simp only [noImpIff, Bool.and_eq_true] at hn
          simp only [skAux, noExists, Bool.and_eq_true]
          exact ⟨ih a univs c (by omega) hn.1, ih b univs _ (by omega) hn.2⟩
      | forall_ v b =>
          simp only [fsize] at h
          simp only [noImpIff] at hn
          simp only [skAux, noExists]
          exact ih b _ c (by omega) hn
      | exists_ v b =>
          simp only [fsize] at h
          simp only [noImpIff] at hn
          cases univs with
          | nil =>
              simp only [skAux]
              exact ih _ [] (c + 1) (by rw [fsize_subst]; omega)
                (by rw [noImpIff_subst]; exact hn)
          | cons u us =>
              simp only [skAux]
              exact ih _ _ (c + 1) (by rw [fsize_subst]; omega)
                (by rw [noImpIff_subst]; exact hn)
      | implies a b => simp [noImpIff] at hn
      | iff a b => simp [noImpIff] at hn

theorem isNNF_noImpIff : ∀ e, isNNF e = true → noImpIff e = true := by
  intro e
  induction e with
  | pred n args => intro h; rfl
  | not p ih => intro h; cases p <;> simp_all [isNNF, noImpIff]
  | and a b iha ihb => intro h; simp_all [isNNF, noImpIff]
  | or a b iha ihb => intro h; simp_all [isNNF, noImpIff]
  | implies a b iha ihb => intro h; simp [isNNF] at h
  | iff a b iha ihb => intro h; simp [isNNF] at h
  | forall_ v b ih => intro h; simp_all [isNNF, noImpIff]
  | exists_ v b ih => intro h; simp_all [isNNF, noImpIff]

theorem subst_eq_substSpec :
    ∀ (e : Formula) (v t : String), noImpIff e = true → subst e v t = substSpec v t e := by
  intro e v t
  induction e <;> simp_all [subst, substSpec, noImpIff]

end CNF
namespace CNF

theorem isDisj_isDist : ∀ e, isDisj e = true → isDist e = true := by
  intro e h
  cases e <;> simp_all [isDisj, isDist]

theorem isDisj_not_andB : ∀ e, isDisj e = true → isAndB e = false := by
  intro e h
  cases e <;> simp_all [isDisj, isAndB]

theorem isAndB_exists : ∀ e, isAndB e = true → ∃ a b, e = .and a b := by
  intro e h
  cases e <;> simp_all [isAndB]

theorem distOrR_not_and (A B : Formula) (h : isAndB B = false) :
    distOrR A B = .or A B := by
  cases B <;> simp_all [isAndB, distOrR]

theorem distOrL_not_and (A B : Formula) (h : isAndB A = false) :
    distOrL A B = distOrR A B := by
  cases A <;> simp_all [isAndB, distOrL]

theorem isDist_distOrR :
    ∀ (B A : Formula), isDisj A = true → isDist B = true → isDist (distOrR A B) = true := by
  intro B
  induction B with
  | and b1 b2 ih1 ih2 =>
      intro A hA hB
      simp only [isDist, Bool.and_eq_true] at hB
      simp [distOrR, isDist, ih1 A hA hB.1, ih2 A hA hB.2]
  | or b1 b2 ih1 ih2 =>
      intro A hA hB
      simp only [isDist] at hB
      simp [distOrR, isDist, isDisj, hA, hB]
  | pred n args => intro A hA _; simp [distOrR, isDist, isDisj, hA]
  | not p ih => intro A hA _; simp [distOrR, isDist, isDisj, hA]
  | implies a b ih1 ih2 => intro A hA _; simp [distOrR, isDist, isDisj, hA]
  | iff a b ih1 ih2 => intro A hA _; simp [distOrR, isDist, isDisj, hA]
  | forall_ v b ih => intro A hA _; simp [distOrR, isDist, isDisj, hA]
  | exists_ v b ih => intro A hA _; simp [distOrR, isDist, isDisj, hA]

theorem isDist_distOrL :
    ∀ (A B : Formula), isDist A = true → isDist B = true → isDist (distOrL A B) = true := by
  intro A
  induction A with
  | and a1 a2 ih1 ih2 =>
      intro B hA hB
      simp only [isDist, Bool.and_eq_true] at hA
      simp [distOrL, isDist, ih1 B hA.1 hB, ih2 B hA.2 hB]
  | or a1 a2 ih1 ih2 =>
      intro B hA hB
      simp only [isDist] at hA
      exact isDist_distOrR B _ (by simp [isDisj, hA]) hB
  | pred n args => intro B _ hB; exact isDist_distOrR B _ rfl hB
  | not p ih => intro B _ hB; exact isDist_distOrR B _ rfl hB
  | implies a b ih1 ih2 => intro B _ hB; exact isDist_distOrR B _ rfl hB
  | iff a b ih1 ih2 => intro B _ hB; exact isDist_distOrR B _ rfl hB
  | forall_ v b ih => intro B _ hB; exact isDist_distOrR B _ rfl hB
  | exists_ v b ih => intro B _ hB; exact isDist_distOrR B _ rfl hB

theorem isDist_distribute : ∀ e, isDist (distribute e) = true := by
  intro e
  induction e with
  | and a b ih1 ih2 => simp [distribute, isDist, ih1, ih2]
  | or a b ih1 ih2 => exact isDist_distOrL _ _ ih1 ih2
  | pred n args => rfl
  | not p ih => rfl
  | implies a b ih1 ih2 => rfl
  | iff a b ih1 ih2 => rfl
  | forall_ v b ih => rfl
  | exists_ v b ih => rfl

theorem distribute_fix_disj : ∀ e, isDisj e = true → distribute e = e := by
  intro e
  induction e with
  | or a b ih1 ih2 =>
      intro h
      simp only [isDisj, Bool.and_eq_true] at h
      rw [distribute, ih1 h.1, ih2 h.2,
        distOrL_not_and _ _ (isDisj_not_andB a h.1),
        distOrR_not_and _ _ (isDisj_not_andB b h.2)]
  | and a b ih1 ih2 => intro h; simp [isDisj] at h
  | pred n args => intro _; rfl
  | not p ih => intro _; rfl
  | implies a b ih1 ih2 => intro _; rfl
  | iff a b ih1 ih2 => intro _; rfl
  | forall_ v b ih => intro _; rfl
  | exists_ v b ih => intro _; rfl

theorem distribute_fix : ∀ e, isDist e = true → distribute e = e := by
  intro e
  induction e with
  | and a b ih1 ih2 =>
      intro h
      simp only [isDist, Bool.and_eq_true] at h
      rw [distribute, ih1 h.1, ih2 h.2]
  | or a b ih1 ih2 =>
      intro h
      simp only [isDist, Bool.and_eq_true] at h
      rw [distribute, distribute_fix_disj a h.1, distribute_fix_disj b h.2,
        distOrL_not_and _ _ (isDisj_not_andB a h.1),
        distOrR_not_and _ _ (isDisj_not_andB b h.2)]
  | pred n args => intro _; rfl
  | not p ih => intro _; rfl
  | implies a b ih1 ih2 => intro _; rfl
  | iff a b ih1 ih2 => intro _; rfl
  | forall_ v b ih => intro _; rfl
  | exists_ v b ih => intro _; rfl

theorem distribute_and (a b : Formula) :
    distribute (.and a b) = .and (distribute a) (distribute b) := rfl

theorem distribute_or_and_left (a b A1 A2 : Formula) (h : distribute a = .and A1 A2) :
    distribute (.or a b) =
      .and (distribute (.or A1 (distribute b))) (distribute (.or A2 (distribute b))) := by
  have hA : isDist (distribute a) = true := isDist_distribute a
  rw [h] at hA
  simp only [isDist, Bool.and_eq_true] at hA
  have hB : isDist (distribute b) = true := isDist_distribute b
  simp only [distribute, h, distOrL]
  rw [distribute_fix _ hA.1, distribute_fix _ hA.2, distribute_fix _ hB]

theorem distribute_or_and_right (a b B1 B2 : Formula)
    (hA : isAndB (distribute a) = false) (h : distribute b = .and B1 B2) :
    distribute (.or a b) =
      .and (distribute (.or (distribute a) B1)) (distribute (.or (distribute a) B2)) := by
  have hDA : isDist (distribute a) = true := isDist_distribute a
  have hDB : isDist (distribute b) = true := isDist_distribute b
  rw [h] at hDB
  simp only [isDist, Bool.and_eq_true] at hDB
  simp only [distribute, h]
  rw [distOrL_not_and _ _ hA]
  simp only [distOrR]
  rw [distribute_fix _ hDA, distribute_fix _ hDB.1, distribute_fix _ hDB.2,
    distOrL_not_and _ _ hA, distOrL_not_and _ _ hA]

theorem distribute_or_plain (a b : Formula)
    (hA : isAndB (distribute a) = false) (hB : isAndB (distribute b) = false) :
    distribute (.or a b) = .or (distribute a) (distribute b) := by
  simp only [distribute]
  rw [distOrL_not_and _ _ hA, distOrR_not_and _ _ hB]

end CNF
namespace CNF

theorem isClause_not_andB : ∀ e, isClause e = true → isAndB e = false := by
  intro e h
  cases e <;> simp_all [isClause, isLiteral, isAndB]

theorem isCNF_distOrR :
    ∀ (B A : Formula), isClause A = true → isCNF B = true → isCNF (distOrR A B) = true := by
  intro B
  induction B with
  | and b1 b2 ih1 ih2 =>
      intro A hA hB
      simp only [isCNF, Bool.and_eq_true] at hB
      simp [distOrR, isCNF, ih1 A hA hB.1, ih2 A hA hB.2]
  | or b1 b2 ih1 ih2 =>
      intro A hA hB
      simp only [isCNF, isClause, Bool.and_eq_true] at hB
      simp [distOrR, isCNF, isClause, hA, hB.1, hB.2]
  | pred n args => intro A hA hB; simp_all [distOrR, isCNF, isClause]
  | not p ih => intro A hA hB; simp_all [distOrR, isCNF, isClause]
  | implies a b ih1 ih2 => intro A hA hB; simp_all [distOrR, isCNF, isClause]
  | iff a b ih1 ih2 => intro A hA hB; simp_all [distOrR, isCNF, isClause]
  | forall_ v b ih => intro A hA hB; simp_all [distOrR, isCNF, isClause]
  | exists_ v b ih => intro A hA hB; simp_all [distOrR, isCNF, isClause]

theorem isCNF_distOrL :
    ∀ (A B : Formula), isCNF A = true → isCNF B = true → isCNF (distOrL A B) = true := by
  intro A
  induction A with
  | and a1 a2 ih1 ih2 =>
      intro B hA hB
      simp only [isCNF, Bool.and_eq_true] at hA
      simp [distOrL, isCNF, ih1 B hA.1 hB, ih2 B hA.2 hB]
  | or a1 a2 ih1 ih2 =>
      intro B hA hB
      simp only [isCNF] at hA
      exact isCNF_distOrR B _ hA hB
  | pred n args => intro B hA hB; exact isCNF_distOrR B _ hA hB
  | not p ih => intro B hA hB; exact isCNF_distOrR B _ hA hB
  | implies a b ih1 ih2 => intro B hA hB; exact isCNF_distOrR B _ hA hB
  | iff a b ih1 ih2 => intro B hA hB; exact isCNF_distOrR B _ hA hB
  | forall_ v b ih => intro B hA hB; exact isCNF_distOrR B _ hA hB
  | exists_ v b ih => intro B hA hB; exact isCNF_distOrR B _ hA hB

theorem isCNF_distribute_of_isNNFqf :
    ∀ e, isNNFqf e = true → isCNF (distribute e) = true := by
  intro e
  induction e with
  | and a b ih1 ih2 =>
      intro h
      simp only [isNNFqf, Bool.and_eq_true] at h
      simp [distribute, isCNF, ih1 h.1, ih2 h.2]
  | or a b ih1 ih2 =>
      intro h
      simp only [isNNFqf, Bool.and_eq_true] at h
      exact isCNF_distOrL _ _ (ih1 h.1) (ih2 h.2)
  | pred n args => intro h; simp [distribute, isCNF, isClause, isLiteral]
  | not p ih => intro h; cases p <;> simp_all [isNNFqf, isLiteral, distribute, isCNF, isClause]
  | implies a b ih1 ih2 => intro h; simp [isNNFqf, isLiteral] at h
  | iff a b ih1 ih2 => intro h; simp [isNNFqf, isLiteral] at h
  | forall_ v b ih => intro h; simp [isNNFqf, isLiteral] at h
  | exists_ v b ih => intro h; simp [isNNFqf, isLiteral] at h

theorem isClause_no_orand : ∀ e, isClause e = true → hasOrAndChild e = false := by
  intro e
  induction e with
  | or a b ih1 ih2 =>
      intro h
      simp only [isClause, Bool.and_eq_true] at h
      simp [hasOrAndChild, isClause_not_andB a h.1, isClause_not_andB b h.2,
        ih1 h.1, ih2 h.2]
  | pred n args => intro _; rfl
  | not p ih => intro h; cases p <;> simp_all [isClause, isLiteral, hasOrAndChild]
  | and a b ih1 ih2 => intro h; simp [isClause, isLiteral] at h
  | implies a b ih1 ih2 => intro h; simp [isClause, isLiteral] at h
  | iff a b ih1 ih2 => intro h; simp [isClause, isLiteral] at h
  | forall_ v b ih => intro h; simp [isClause, isLiteral] at h
  | exists_ v b ih => intro h; simp [isClause, isLiteral] at h

theorem isCNF_no_orand : ∀ e, isCNF e = true → hasOrAndChild e = false := by
  intro e
  induction e with
  | and a b ih1 ih2 =>
      intro h
      simp only [isCNF, Bool.and_eq_true] at h
      simp [hasOrAndChild, ih1 h.1, ih2 h.2]
  | or a b ih1 ih2 => intro h; exact isClause_no_orand _ h
  | pred n args => intro _; rfl
  | not p ih => intro h; exact isClause_no_orand _ h
  | implies a b ih1 ih2 => intro h; simp [isCNF, isClause, isLiteral] at h
  | iff a b ih1 ih2 => intro h; simp [isCNF, isClause, isLiteral] at h
  | forall_ v b ih => intro h; simp [isCNF, isClause, isLiteral] at h
  | exists_ v b ih => intro h; simp [isCNF, isClause, isLiteral] at h

end CNF
namespace CNF

theorem distributeFuel_mono :
    ∀ (n : Nat) (e r : Formula), distributeFuel n e = some r →
      ∀ m, n ≤ m → distributeFuel m e = some r := by
  intro n
  induction n with
  | zero => intro e r h m hm; simp [distributeFuel] at h
  | succ n ih =>
      intro e r h m hm
      obtain ⟨m, rfl⟩ : ∃ m', m = m' + 1 := ⟨m - 1, by omega⟩
      have hm' : n ≤ m := by omega
      cases e with
      | pred nm args => exact h
      | not p => exact h
      | implies a b => exact h
      | iff a b => exact h
      | forall_ v b => exact h
      | exists_ v b => exact h
      | and a b =>
          simp only [distributeFuel] at h ⊢
          cases hA : distributeFuel n a with
          | none => rw [hA] at h; exact Option.noConfusion h
          | some A =>
              cases hB : distributeFuel n b with
              | none => rw [hA, hB] at h; exact Option.noConfusion h
              | some B =>
                  rw [hA, hB] at h
                  rw [ih a A hA m hm', ih b B hB m hm']
                  exact h
      | or a b =>
          simp only [distributeFuel] at h ⊢
          cases hA : distributeFuel n a with
          | none => rw [hA] at h; exact Option.noConfusion h
          | some A =>
              cases hB : distributeFuel n b with
              | none => rw [hA, hB] at h; exact Option.noConfusion h
              | some B =>
                  rw [hA, hB] at h
                  rw [ih a A hA m hm', ih b B hB m hm']
                  dsimp only at h ⊢
                  by_cases hAnd : isAndB A = true
                  · rw [if_pos hAnd] at h ⊢
                    cases hx : distributeFuel n (.or (andL A) B) with
                    | none => rw [hx] at h; exact Option.noConfusion h
                    | some x =>
                        cases hy : distributeFuel n (.or (andR A) B) with
                        | none => rw [hx, hy] at h; exact Option.noConfusion h
                        | some y =>
                            rw [hx, hy] at h
                            rw [ih _ x hx m hm', ih _ y hy m hm']
                            exact h
                  · rw [if_neg hAnd] at h ⊢
                    by_cases hBnd : isAndB B = true
                    · rw [if_pos hBnd] at h ⊢
                      cases hx : distributeFuel n (.or A (andL B)) with
                      | none => rw [hx] at h; exact Option.noConfusion h
                      | some x =>
                          cases hy : distributeFuel n (.or A (andR B)) with
                          | none => rw [hx, hy] at h; exact Option.noConfusion h
                          | some y =>
                              rw [hx, hy] at h
                              rw [ih _ x hx m hm', ih _ y hy m hm']
                              exact h
                    · rw [if_neg hBnd] at h ⊢
                      exact h

theorem distributeFuel_fix :
    ∀ (fuel : Nat) (e : Formula), fsize e ≤ fuel → isDist e = true →
      distributeFuel fuel e = some e := by
  intro fuel
  induction fuel with
  | zero => intro e h _; have := fsize_pos e; omega
  | succ fuel ih =>
      intro e h hd
      cases e with
      | pred nm args => rfl
      | not p => rfl
      | implies a b => rfl
      | iff a b => rfl
      | forall_ v b => rfl
      | exists_ v b => rfl
      | and a b =>
          simp only [fsize] at h
          simp only [isDist, Bool.and_eq_true] at hd
          simp only [distributeFuel]
          rw [ih a (by omega) hd.1, ih b (by omega) hd.2]
      | or a b =>
          simp only [fsize] at h
          simp only [isDist, Bool.and_eq_true] at hd
          simp only [distributeFuel]
          rw [ih a (by omega) (isDisj_isDist a hd.1), ih b (by omega) (isDisj_isDist b hd.2)]
          dsimp only
          rw [if_neg (by simp [isDisj_not_andB a hd.1]),
            if_neg (by simp [isDisj_not_andB b hd.2])]

theorem distributeFuel_distOrR :
    ∀ (k : Nat) (B : Formula), fsize B ≤ k → isDist B = true →
      ∀ A, isDist A = true → isAndB A = false →
        ∃ n, distributeFuel n (.or A B) = some (distOrR A B) := by
  intro k
  induction k with
  | zero => intro B h _ _ _ _; have := fsize_pos B; omega
  | succ k ih =>
      intro B hB hdB A hdA hA
      by_cases hBnd : isAndB B = true
      · obtain ⟨B1, B2, rfl⟩ := isAndB_exists B hBnd
        have hf : fsize B1 ≤ k ∧ fsize B2 ≤ k := by
          simp only [fsize] at hB
          have := fsize_pos B1
          have := fsize_pos B2
          constructor <;> omega
        have hd12 : isDist B1 = true ∧ isDist B2 = true := by
          simpa [isDist, Bool.and_eq_true] using hdB
        obtain ⟨n1, h1⟩ := ih B1 hf.1 hd12.1 A hdA hA
        obtain ⟨n2, h2⟩ := ih B2 hf.2 hd12.2 A hdA hA
        obtain ⟨N, hA', hB', h1', h2'⟩ :
            ∃ N, distributeFuel N A = some A
              ∧ distributeFuel N (Formula.and B1 B2) = some (Formula.and B1 B2)
              ∧ distributeFuel N (.or A B1) = some (distOrR A B1)
              ∧ distributeFuel N (.or A B2) = some (distOrR A B2) := by
          refine ⟨n1 + n2 + fsize A + fsize (Formula.and B1 B2),
            distributeFuel_mono (fsize A) A A
              (distributeFuel_fix (fsize A) A (le_refl _) hdA) _ (by omega),
            distributeFuel_mono (fsize (Formula.and B1 B2)) _ _
              (distributeFuel_fix _ _ (le_refl _) hdB) _ (by omega),
            distributeFuel_mono n1 _ _ h1 _ (by omega),
            distributeFuel_mono n2 _ _ h2 _ (by omega)⟩
        refine ⟨N + 1, ?_⟩
        simp only [distributeFuel]
        rw [hA', hB']
        dsimp only
        rw [if_neg (by simp [hA]),
          if_pos (show isAndB (Formula.and B1 B2) = true from rfl)]
        dsimp only [andL, andR]
        rw [h1', h2']
        rfl
      · have hBf : isAndB B = false := by simpa using hBnd
        obtain ⟨N, hA', hB'⟩ :
            ∃ N, distributeFuel N A = some A ∧ distributeFuel N B = some B := by
          refine ⟨fsize A + fsize B,
            distributeFuel_mono (fsize A) A A
              (distributeFuel_fix (fsize A) A (le_refl _) hdA) _ (by omega),
            distributeFuel_mono (fsize B) B B
              (distributeFuel_fix (fsize B) B (le_refl _) hdB) _ (by omega)⟩
        refine ⟨N + 1, ?_⟩
        simp only [distributeFuel]
        rw [hA', hB']
        dsimp only
        rw [if_neg (by simp [hA]), if_neg (by simp [hBf]), distOrR_not_and A B hBf]

theorem distributeFuel_distOrL :
    ∀ (k : Nat) (A : Formula), fsize A ≤ k → isDist A = true →
      ∀ B, isDist B = true →
        ∃ n, distributeFuel n (.or A B) = some (distOrL A B) := by
  intro k
  induction k with
  | zero => intro A h _ _ _; have := fsize_pos A; omega
  | succ k ih =>
      intro A hA hdA B hdB
      by_cases hAnd : isAndB A = true
      · obtain ⟨A1, A2, rfl⟩ := isAndB_exists A hAnd
        have hf : fsize A1 ≤ k ∧ fsize A2 ≤ k := by
          simp only [fsize] at hA
          have := fsize_pos A1
          have := fsize_pos A2
          constructor <;> omega
        have hd12 : isDist A1 = true ∧ isDist A2 = true := by
          simpa [isDist, Bool.and_eq_true] using hdA
        obtain ⟨n1, h1⟩ := ih A1 hf.1 hd12.1 B hdB
        obtain ⟨n2, h2⟩ := ih A2 hf.2 hd12.2 B hdB
        obtain ⟨N, hA', hB', h1', h2'⟩ :
            ∃ N, distributeFuel N (Formula.and A1 A2) = some (Formula.and A1 A2)
              ∧ distributeFuel N B = some B
              ∧ distributeFuel N (.or A1 B) = some (distOrL A1 B)
              ∧ distributeFuel N (.or A2 B) = some (distOrL A2 B) := by
          refine ⟨n1 + n2 + fsize (Formula.and A1 A2) + fsize B,
            distributeFuel_mono (fsize (Formula.and A1 A2)) _ _
              (distributeFuel_fix _ _ (le_refl _) hdA) _ (by omega),
            distributeFuel_mono (fsize B) B B
              (distributeFuel_fix (fsize B) B (le_refl _) hdB) _ (by omega),
            distributeFuel_mono n1 _ _ h1 _ (by omega),
            distributeFuel_mono n2 _ _ h2 _ (by omega)⟩
        refine ⟨N + 1, ?_⟩
        simp only [distributeFuel]
        rw [hA', hB']
        dsimp only
        rw [if_pos (show isAndB (Formula.and A1 A2) = true from rfl)]
        dsimp only [andL, andR]
        rw [h1', h2']
        rfl
      · have hAf : isAndB A = false := by simpa using hAnd
        rw [distOrL_not_and A B hAf]
        exact distributeFuel_distOrR (fsize B) B (le_refl _) hdB A hdA hAf

theorem distributeFuel_distribute :
    ∀ e, ∃ n, distributeFuel n e = some (distribute e) := by
  intro e
  induction e with
  | pred nm args => exact ⟨1, rfl⟩
  | not p ih => exact ⟨1, rfl⟩
  | implies a b ih1 ih2 => exact ⟨1, rfl⟩
  | iff a b ih1 ih2 => exact ⟨1, rfl⟩
  | forall_ v b ih => exact ⟨1, rfl⟩
  | exists_ v b ih => exact ⟨1, rfl⟩
  | and a b ih1 ih2 =>
      obtain ⟨n1, h1⟩ := ih1
      obtain ⟨n2, h2⟩ := ih2
      refine ⟨n1 + n2 + 1, ?_⟩
      simp only [distributeFuel]
      rw [distributeFuel_mono n1 a _ h1 (n1 + n2) (by omega),
        distributeFuel_mono n2 b _ h2 (n1 + n2) (by omega)]
      rfl
  | or a b ih1 ih2 =>
      obtain ⟨n1, h1⟩ := ih1
      obtain ⟨n2, h2⟩ := ih2
      have hdA := isDist_distribute a
      have hdB := isDist_distribute b
      by_cases hAnd : isAndB (distribute a) = true
      · obtain ⟨A1, A2, hEq⟩ := isAndB_exists _ hAnd
        have h12 : isDist A1 = true ∧ isDist A2 = true := by
          rw [hEq] at hdA
          simpa [isDist, Bool.and_eq_true] using hdA
        obtain ⟨m1, g1⟩ :=
          distributeFuel_distOrL (fsize A1) A1 (le_refl _) h12.1 (distribute b) hdB
        obtain ⟨m2, g2⟩ :=
          distributeFuel_distOrL (fsize A2) A2 (le_refl _) h12.2 (distribute b) hdB
        obtain ⟨N, h1', h2', g1', g2'⟩ :
            ∃ N, distributeFuel N a = some (distribute a)
              ∧ distributeFuel N b = some (distribute b)
              ∧ distributeFuel N (.or A1 (distribute b)) = some (distOrL A1 (distribute b))
              ∧ distributeFuel N (.or A2 (distribute b)) = some (distOrL A2 (distribute b)) := by
          refine ⟨n1 + n2 + m1 + m2,
            distributeFuel_mono n1 _ _ h1 _ (by omega),
            distributeFuel_mono n2 _ _ h2 _ (by omega),
            distributeFuel_mono m1 _ _ g1 _ (by omega),
            distributeFuel_mono m2 _ _ g2 _ (by omega)⟩
        refine ⟨N + 1, ?_⟩
        simp only [distributeFuel]
        rw [h1', h2', hEq]
        dsimp only
        rw [if_pos (show isAndB (Formula.and A1 A2) = true from rfl)]
        dsimp only [andL, andR]
        rw [g1', g2']
        rw [show distribute (.or a b) = distOrL (distribute a) (distribute b) from rfl, hEq]
        rfl
      · have hAf : isAndB (distribute a) = false := by simpa using hAnd
        by_cases hBnd : isAndB (distribute b) = true
        · obtain ⟨B1, B2, hEq⟩ := isAndB_exists _ hBnd
          have h12 : isDist B1 = true ∧ isDist B2 = true := by
            rw [hEq] at hdB
            simpa [isDist, Bool.and_eq_true] using hdB
          obtain ⟨m1, g1⟩ :=
            distributeFuel_distOrR (fsize B1) B1 (le_refl _) h12.1 (distribute a) hdA hAf
          obtain ⟨m2, g2⟩ :=
            distributeFuel_distOrR (fsize B2) B2 (le_refl _) h12.2 (distribute a) hdA hAf
          obtain ⟨N, h1', h2', g1', g2'⟩ :
              ∃ N, distributeFuel N a = some (distribute a)
                ∧ distributeFuel N b = some (distribute b)
                ∧ distributeFuel N (.or (distribute a) B1) = some (distOrR (distribute a) B1)
                ∧ distributeFuel N (.or (distribute a) B2) =
                    some (distOrR (distribute a) B2) := by
            refine ⟨n1 + n2 + m1 + m2,
              distributeFuel_mono n1 _ _ h1 _ (by omega),
              distributeFuel_mono n2 _ _ h2 _ (by omega),
              distributeFuel_mono m1 _ _ g1 _ (by omega),
              distributeFuel_mono m2 _ _ g2 _ (by omega)⟩
          refine ⟨N + 1, ?_⟩
          simp only [distributeFuel]
          rw [h1', h2', hEq]
          dsimp only
          rw [if_neg (by simp [hAf]),
            if_pos (show isAndB (Formula.and B1 B2) = true from rfl)]
          dsimp only [andL, andR]
          rw [g1', g2']
          rw [show distribute (.or a b) = distOrL (distribute a) (distribute b) from rfl, hEq,
            distOrL_not_and _ _ hAf]
          rfl
        · have hBf : isAndB (distribute b) = false := by simpa using hBnd
          refine ⟨n1 + n2 + 1, ?_⟩
          have h1' := distributeFuel_mono n1 _ _ h1 (n1 + n2) (by omega)
          have h2' := distributeFuel_mono n2 _ _ h2 (n1 + n2) (by omega)
          simp only [distributeFuel]
          rw [h1', h2']
          dsimp only
          rw [if_neg (by simp [hAf]), if_neg (by simp [hBf])]
          rw [show distribute (.or a b) = distOrL (distribute a) (distribute b) from rfl,
            distOrL_not_and _ _ hAf, distOrR_not_and _ _ hBf]

end CNF
namespace CNF

/-- C1: on the module-level example forall x (P(x) implies exists y (Q(y)
and R(x,y))), starting from a fresh counter the full pipeline returns a
conjunction of two disjunctions, each containing the negated P(x) and one
of Q / R applied to the Skolem term of x (the flat string f0(x)). -/
theorem to_cnf_example_pipeline :
    (to_cnf expr 0).1 =
      .and (.or (.not (pred "P" ["x"])) (pred "Q" ["f0(x)"]))
        (.or (.not (pred "P" ["x"])) (pred "R" ["x", "f0(x)"])) := by
  decide

/-- C2: on formulas in negation normal form, skolemize leaves no exists
node; an exists under a non-empty universal list replaces its variable
throughout the body, via subst, with the fresh function applied to exactly
those universals in outward-to-inward order, an exists under no universals
replaces it with the fresh constant, the exists node itself is discarded,
and forall nodes are retained. -/
theorem skolemize_spec :
    (∀ e univs c, isNNF e = true → noExists (skolemize e univs c).1 = true)
    ∧ (∀ v b univs c, univs ≠ [] →
        skolemize (.exists_ v b) univs c =
          skolemize (subst b v (new_func c univs)) univs (c + 1))
    ∧ (∀ v b c, skolemize (.exists_ v b) [] c =
        skolemize (subst b v (new_const c)) [] (c + 1))
    ∧ (∀ v b univs c, skolemize (.forall_ v b) univs c =
        (.forall_ v (skolemize b (univs ++ [v]) c).1, (skolemize b (univs ++ [v]) c).2)) :=
  ⟨fun e univs c h => noExists_skAux (fsize e) e univs c (le_refl _) (isNNF_noImpIff e h),
   skolemize_exists_nonempty, skolemize_exists_empty, skolemize_forall⟩

/-- C2 witness at concrete inputs. -/
theorem skolemize_spec_witness :
    noExists (skolemize (.exists_ "y" (pred "Q" ["y"])) [] 0).1 = true
    ∧ skolemize (.exists_ "y" (pred "Q" ["y"])) ["x"] 0 =
        skolemize (subst (pred "Q" ["y"]) "y" (new_func 0 ["x"])) ["x"] 1
    ∧ skolemize (.exists_ "y" (pred "Q" ["y"])) [] 0 =
        skolemize (subst (pred "Q" ["y"]) "y" (new_const 0)) [] 1
    ∧ skolemize (.forall_ "x" (pred "P" ["x"])) [] 0 =
        (.forall_ "x" (skolemize (pred "P" ["x"]) ["x"] 0).1,
          (skolemize (pred "P" ["x"]) ["x"] 0).2) :=
  ⟨skolemize_spec.1 (.exists_ "y" (pred "Q" ["y"])) [] 0 (by decide),
   skolemize_spec.2.1 "y" (pred "Q" ["y"]) ["x"] 0 (by decide),
   skolemize_spec.2.2.1 "y" (pred "Q" ["y"]) 0,
   skolemize_spec.2.2.2 "x" (pred "P" ["x"]) [] 0⟩

/-- C3 counterexample: drop_forall returns any non-forall root unchanged,
so a forall nested under a conjunction survives and the result is not
quantifier-free. -/
theorem drop_forall_nested_counterexample :
    hasForall (drop_forall (.and (.forall_ "x" (pred "P" ["x"])) (pred "Q" ["y"]))) = true := by
  decide

/-- C3 amended: drop_forall strips exactly the maximal leading chain of
forall quantifiers — it unwraps a forall root, returns every non-forall
root unchanged (so forall nodes nested under other connectives survive),
the result is never a forall node, and it is forall-free exactly when the
input is prenex (a forall chain over a forall-free body), not for every
input. -/
theorem drop_forall_amended :
    (∀ e, isForallB (drop_forall e) = false)
    ∧ (∀ v b, drop_forall (.forall_ v b) = drop_forall b)
    ∧ (∀ e, isForallB e = false → drop_forall e = e)
    ∧ (∀ e, hasForall (drop_forall e) = false ↔ prenexForall e = true) := by
  refine ⟨?_, fun v b => rfl, ?_, ?_⟩
  · intro e
    induction e with
    | forall_ v b ih => exact ih
    | pred n args => rfl
    | not p ih => rfl
    | and a b ih1 ih2 => rfl
    | or a b ih1 ih2 => rfl
    | implies a b ih1 ih2 => rfl
    | iff a b ih1 ih2 => rfl
    | exists_ v b ih => rfl
  · intro e h
    cases e with
    | forall_ v b => simp [isForallB] at h
    | pred n args => rfl
    | not p => rfl
    | and a b => rfl
    | or a b => rfl
    | implies a b => rfl
    | iff a b => rfl
    | exists_ v b => rfl
  · intro e
    induction e with
    | forall_ v b ih => exact ih
    | pred n args => simp [drop_forall, hasForall, prenexForall]
    | not p ih => simp [drop_forall, hasForall, prenexForall]
    | and a b ih1 ih2 => simp [drop_forall, hasForall, prenexForall]
    | or a b ih1 ih2 => simp [drop_forall, hasForall, prenexForall]
    | implies a b ih1 ih2 => simp [drop_forall, hasForall, prenexForall]
    | iff a b ih1 ih2 => simp [drop_forall, hasForall, prenexForall]
    | exists_ v b ih => simp [drop_forall, hasForall, prenexForall]

/-- C3 witness: a prenex chain strips to a forall-free body, one forall is
unwrapped, a conjunction root comes back unchanged with its nested forall
surviving, and the forall-free and prenex sides of the equivalence agree at
a concrete non-prenex input. -/
theorem drop_forall_amended_witness :
    isForallB (drop_forall (.forall_ "x" (.forall_ "y" (pred "P" ["x", "y"])))) = false
    ∧ drop_forall (.forall_ "x" (pred "P" ["x"])) = drop_forall (pred "P" ["x"])
    ∧ drop_forall (.and (.forall_ "x" (pred "P" ["x"])) (pred "Q" ["y"])) =
        .and (.forall_ "x" (pred "P" ["x"])) (pred "Q" ["y"])
    ∧ hasForall (drop_forall (.forall_ "x" (.forall_ "y" (pred "P" ["x", "y"])))) = false :=
  ⟨drop_forall_amended.1 (.forall_ "x" (.forall_ "y" (pred "P" ["x", "y"]))),
   drop_forall_amended.2.1 "x" (pred "P" ["x"]),
   drop_forall_amended.2.2.1 (.and (.forall_ "x" (pred "P" ["x"])) (pred "Q" ["y"])) (by decide),
   (drop_forall_amended.2.2.2 (.forall_ "x" (.forall_ "y" (pred "P" ["x", "y"])))).mpr
     (by decide)⟩

/-- C4 counterexample: the value new_func returns is one flat string, not
an Apply node carrying its argument list: two different argument sequences
yield the very same term, which is impossible for a node whose argument
list is exactly the supplied sequence. -/
theorem new_func_args_collision :
    new_func 0 ["a,b"] = new_func 0 ["a", "b"]
    ∧ (["a,b"] : List String) ≠ ["a", "b"] := by
  decide

/-- C4 amended: new_func returns the flat string f<counter>(arguments
joined by commas): the numbered name is fresh — never returned twice and
distinct from every generated constant name — and the argument strings
appear in the supplied order inside the string, but the result is a flat
string, not an Apply node of a recursive term type. -/
theorem new_func_amended :
    (∀ c args, new_func c args = funcName c ++ "(" ++ String.intercalate "," args ++ ")")
    ∧ (∀ c c', c ≠ c' → funcName c ≠ funcName c')
    ∧ (∀ c c', funcName c ≠ new_const c') :=
  ⟨fun _ _ => rfl, funcName_inj, funcName_ne_const⟩

/-- C4 witness at concrete counters. -/
theorem new_func_amended_witness :
    new_func 0 ["x"] = funcName 0 ++ "(" ++ String.intercalate "," ["x"] ++ ")"
    ∧ funcName 0 ≠ funcName 1
    ∧ funcName 0 ≠ new_const 0 :=
  ⟨new_func_amended.1 0 ["x"], new_func_amended.2.1 0 1 (by decide),
   new_func_amended.2.2 0 0⟩

/-- C5 counterexample: distribute treats negation nodes as opaque leaves,
so an input built from and, or, not and predicate nodes in which a negation
wraps a disjunction with a conjunct child comes back with an or node that
still has a direct and child. -/
theorem distribute_not_counterexample :
    builtFromAONP (.not (.or (.and (pred "P" []) (pred "Q" [])) (pred "R" []))) = true
    ∧ hasOrAndChild
        (distribute (.not (.or (.and (pred "P" []) (pred "Q" [])) (pred "R" [])))) = true := by
  decide

/-- C5 amended: for quantifier-free inputs in negation normal form (not
wraps only predicates), the result of distribute is a conjunction of
disjunctions of possibly negated predicates and contains no or node with a
direct and child. -/
theorem distribute_cnf :
    ∀ e, isNNFqf e = true →
      isCNF (distribute e) = true ∧ hasOrAndChild (distribute e) = false := by
  intro e h
  have h1 := isCNF_distribute_of_isNNFqf e h
  exact ⟨h1, isCNF_no_orand _ h1⟩

/-- C5 witness: the two-sided distribution example. -/
theorem distribute_cnf_witness :
    isCNF (distribute (.or (.and (pred "A" []) (pred "B" []))
        (.and (pred "C" []) (pred "D" [])))) = true
    ∧ hasOrAndChild (distribute (.or (.and (pred "A" []) (pred "B" []))
        (.and (pred "C" []) (pred "D" [])))) = false :=
  distribute_cnf (.or (.and (pred "A" []) (pred "B" []))
    (.and (pred "C" []) (pred "D" []))) (by decide)

/-- C6: for inputs with no implies and no iff node, every negation in the
nnf output directly wraps a predicate; none wraps an and, or, forall or
exists. -/
theorem nnf_not_only_atoms :
    ∀ e, noImpIff e = true → notOnlyAtoms (nnf e) = true :=
  fun e h => notOnlyAtoms_nnfAux e false h

/-- C6 witness at a concrete negated conjunction. -/
theorem nnf_not_only_atoms_witness :
    notOnlyAtoms (nnf (.not (.and (pred "P" ["x"]) (pred "Q" ["y"])))) = true :=
  nnf_not_only_atoms (.not (.and (pred "P" ["x"]) (pred "Q" ["y"]))) (by decide)

/-- C7: nnf conversion is idempotent: applying nnf to an nnf result changes
nothing, for every formula. -/
theorem nnf_idempotent : ∀ F, nnf (nnf F) = nnf F :=
  fun F => nnfAux_nnfAux F false

/-- C8 counterexample: subst passes implies (and iff) subtrees through
unchanged, so a predicate argument equal to the substituted variable
survives inside them, against the claim for arbitrary formulas. -/
theorem subst_implies_counterexample :
    subst (.implies (pred "P" ["x"]) (pred "Q" ["x"])) "x" "c" =
        .implies (pred "P" ["x"]) (pred "Q" ["x"])
    ∧ hasArg "x" (subst (.implies (pred "P" ["x"]) (pred "Q" ["x"])) "x" "c") = true
    ∧ ("x" : String) ≠ "c" := by
  decide

/-- C8 amended: on formulas free of implies and iff nodes — the node kinds
the source dispatch passes through untouched — subst coincides with the
specification substitution: every predicate argument equal to the variable
is replaced, nothing else changes, every not, and, or, forall and exists
node is rebuilt, and traversal does not stop at quantifiers rebinding the
same name. -/
theorem subst_spec_agree :
    ∀ e v t, noImpIff e = true → subst e v t = substSpec v t e :=
  subst_eq_substSpec

/-- C8 witness: substitution proceeds under a quantifier rebinding the
substituted variable. -/
theorem subst_spec_agree_witness :
    subst (.forall_ "x" (pred "P" ["x"])) "x" "c" =
      substSpec "x" "c" (.forall_ "x" (pred "P" ["x"]))
    ∧ subst (.forall_ "x" (pred "P" ["x"])) "x" "c" = .forall_ "x" (pred "P" ["c"]) :=
  ⟨subst_spec_agree (.forall_ "x" (pred "P" ["x"])) "x" "c" (by decide), by decide⟩

/-- C9: every stage is total. remove_implications, subst and drop_forall
are plain structural recursions transcribed directly; the nnf recursion on
freshly built not-nodes and the skolemize recursion through substituted
bodies are satisfied by total functions (any fuel from the node count up
gives skolemize); and the distribute recursion on freshly built or-nodes
both satisfies its source equations as a total function and halts: the
step-indexed transcription succeeds on every input for some finite fuel. -/
theorem stages_total :
    (∀ x, nnf (.not (.not x)) = nnf x)
    ∧ (∀ a b, nnf (.not (.and a b)) = .or (nnf (.not a)) (nnf (.not b)))
    ∧ (∀ a b, nnf (.not (.or a b)) = .and (nnf (.not a)) (nnf (.not b)))
    ∧ (∀ v b, nnf (.not (.forall_ v b)) = .exists_ v (nnf (.not b)))
    ∧ (∀ v b, nnf (.not (.exists_ v b)) = .forall_ v (nnf (.not b)))
    ∧ (∀ fuel e univs c, fsize e ≤ fuel → skAux fuel e univs c = skolemize e univs c)
    ∧ (∀ a b A1 A2, distribute a = .and A1 A2 →
        distribute (.or a b) =
          .and (distribute (.or A1 (distribute b))) (distribute (.or A2 (distribute b))))
    ∧ (∀ a b B1 B2, isAndB (distribute a) = false → distribute b = .and B1 B2 →
        distribute (.or a b) =
          .and (distribute (.or (distribute a) B1)) (distribute (.or (distribute a) B2)))
    ∧ (∀ a b, isAndB (distribute a) = false → isAndB (distribute b) = false →
        distribute (.or a b) = .or (distribute a) (distribute b))
    ∧ (∀ e, ∃ n, distributeFuel n e = some (distribute e)) :=
  ⟨nnf_not_not, nnf_not_and, nnf_not_or, nnf_not_forall, nnf_not_exists,
   fun fuel e univs c h => skAux_fuel_irrel fuel (fsize e) e univs c h (le_refl _),
   distribute_or_and_left, distribute_or_and_right, distribute_or_plain,
   distributeFuel_distribute⟩

/-- C9 witness at concrete inputs. -/
theorem stages_total_witness :
    nnf (.not (.not (pred "P" ["x"]))) = nnf (pred "P" ["x"])
    ∧ skAux 5 (pred "P" ["x"]) [] 0 = skolemize (pred "P" ["x"]) [] 0
    ∧ distribute (.or (.and (pred "A" []) (pred "B" [])) (pred "C" [])) =
        .and (distribute (.or (pred "A" []) (distribute (pred "C" []))))
          (distribute (.or (pred "B" []) (distribute (pred "C" []))))
    ∧ distribute (.or (pred "C" []) (.and (pred "A" []) (pred "B" []))) =
        .and (distribute (.or (distribute (pred "C" [])) (pred "A" [])))
          (distribute (.or (distribute (pred "C" [])) (pred "B" [])))
    ∧ distribute (.or (pred "A" []) (pred "B" [])) =
        .or (distribute (pred "A" [])) (distribute (pred "B" []))
    ∧ ∃ n, distributeFuel n (.or (.and (pred "A" []) (pred "B" [])) (pred "C" []))
        = some (distribute (.or (.and (pred "A" []) (pred "B" [])) (pred "C" []))) :=
  ⟨stages_total.1 (pred "P" ["x"]),
   stages_total.2.2.2.2.2.1 5 (pred "P" ["x"]) [] 0 (by decide),
   stages_total.2.2.2.2.2.2.1 (.and (pred "A" []) (pred "B" [])) (pred "C" [])
     (pred "A" []) (pred "B" []) (by decide),
   stages_total.2.2.2.2.2.2.2.1 (pred "C" []) (.and (pred "A" []) (pred "B" []))
     (pred "A" []) (pred "B" []) (by decide) (by decide),
   stages_total.2.2.2.2.2.2.2.2.1 (pred "A" []) (pred "B" []) (by decide) (by decide),
   stages_total.2.2.2.2.2.2.2.2.2 (.or (.and (pred "A" []) (pred "B" [])) (pred "C" []))⟩

/-- C10: nnf returns an implies or iff node unchanged, without recursing
into it, and a negation of such a node as the negation of the unchanged
subtree; no error is signalled. -/
theorem nnf_implies_iff_unchanged :
    ∀ a b, nnf (.implies a b) = .implies a b
      ∧ nnf (.iff a b) = .iff a b
      ∧ nnf (.not (.implies a b)) = .not (.implies a b)
      ∧ nnf (.not (.iff a b)) = .not (.iff a b) :=
  fun _ _ => ⟨rfl, rfl, rfl, rfl⟩

end CNF
